import Mathlib

/-!
Package tokensession: token-addressed sessions over a Redis store.

A shallow embedding of `session.go` (package `tokensession`) and `redis/redis.go`
(package `redisstore`).

* A Go `map[string]interface{}` is a reference to a map object. The contents of a map
  object are an association list (`Values`); map objects live in the `heap` of the `World`
  and a session holds the address of its map.
* Every method is a state transformer on the `World`, returning its Go results next to the
  world it leaves behind. A pointer parameter (`session *TokenSession`) is an in/out
  parameter: the callee returns the struct it leaves behind the pointer.
* A Go string is a sequence of bytes (`GoString`), valid UTF-8 or not, wherever it is data
  of a session (keys and string values of a mapping). Tokens, key prefixes and the texts of
  errors and commands never pass through the codec and are kept as text.
* The Redis connection pool (`redis.Pool` of redigo) and the JSON library (`encoding/json`,
  `strconv`) are outside the repository. The pool is a record of the three operations the
  code calls (`Pool`), over an arbitrary server state. The JSON library is split in two: which
  Go dynamic type becomes which JSON kind and back is written out below (`marshalValue`,
  `decodeValue`), while the byte syntax of documents and the decimal spelling of floats are
  the fields of a record (`Lib`).
-/

namespace Tokensession

/-! ## Go values -/

/-- A Go floating-point value: a finite number, given by its exact value, or one of the
three non-finite values. -/
inductive GoFloat where
  | num (x : ℚ)
  | posInf
  | negInf
  | nan
  deriving DecidableEq

/-- A Go `string`: any sequence of bytes, each a number below 256. -/
abbrev GoString := List Nat

/-- The UTF-8 encoding of one character. -/
def encodeRune (c : Char) : List Nat :=
  if c.toNat < 0x80 then [c.toNat]
  else if c.toNat < 0x800 then [0xC0 + c.toNat / 64, 0x80 + c.toNat % 64]
  else if c.toNat < 0x10000 then
    [0xE0 + c.toNat / 4096, 0x80 + c.toNat / 64 % 64, 0x80 + c.toNat % 64]
  else
    [0xF0 + c.toNat / 262144, 0x80 + c.toNat / 4096 % 64, 0x80 + c.toNat / 64 % 64,
      0x80 + c.toNat % 64]

/-- The Go string whose bytes are the UTF-8 encoding of a text. -/
def utf8 (s : String) : GoString := s.data.flatMap encodeRune

/-- The byte at position `i` exists and lies in `lo..hi`. -/
def byteIn (s : List Nat) (i lo hi : Nat) : Bool :=
  match s.get? i with
  | some b => decide (lo ≤ b) && decide (b ≤ hi)
  | none => false

/-- Go's `utf8.DecodeRune`, as far as widths go: the number of bytes of the well-formed
encoding at the head of `s`, or 0 when there is none (empty input, or `RuneError` of
width 1). -/
def runeWidth (s : List Nat) : Nat :=
  match s.head? with
  | none => 0
  | some b0 =>
    if b0 < 0x80 then 1
    else if 0xC2 ≤ b0 ∧ b0 ≤ 0xDF then
      (if byteIn s 1 0x80 0xBF then 2 else 0)
    else if 0xE0 ≤ b0 ∧ b0 ≤ 0xEF then
      (if byteIn s 1 (if b0 = 0xE0 then 0xA0 else 0x80) (if b0 = 0xED then 0x9F else 0xBF) &&
          byteIn s 2 0x80 0xBF then 3 else 0)
    else if 0xF0 ≤ b0 ∧ b0 ≤ 0xF4 then
      (if byteIn s 1 (if b0 = 0xF0 then 0x90 else 0x80) (if b0 = 0xF4 then 0x8F else 0xBF) &&
          byteIn s 2 0x80 0xBF && byteIn s 3 0x80 0xBF then 4 else 0)
    else 0

/-- The loop of `encoding/json` over the bytes of a string it writes: a well-formed
encoding is kept, with `pending` of its bytes still to copy, and every other byte is replaced
by the encoding of U+FFFD. -/
def coerceFrom : Nat → List Nat → List Nat
  | _, [] => []
  | pending + 1, b :: rest => b :: coerceFrom pending rest
  | 0, b :: rest =>
    match runeWidth (b :: rest) with
    | 0 => 0xEF :: 0xBF :: 0xBD :: coerceFrom 0 rest
    | width + 1 => b :: coerceFrom width rest

/-- The string `json.Marshal` writes for a Go string: invalid UTF-8 coerced to U+FFFD. A
string is valid UTF-8 exactly when this leaves it as it is. -/
def toValidUTF8 (s : GoString) : GoString := coerceFrom 0 s

/-- A dynamically typed Go value (`interface{}`), tagged with its dynamic type.
`nilSlice` and `nilMap` are the nil values of `[]interface{}` and
`map[string]interface{}`; `unsupported` stands for a value of a type `json.Marshal`
rejects (a channel, a function, a complex number). -/
inductive Value where
  | nil
  | bool (b : Bool)
  | int (n : Int)
  | int64 (n : Int)
  | float32 (f : GoFloat)
  | float64 (f : GoFloat)
  | string (s : GoString)
  | nilSlice
  | slice (xs : List Value)
  | nilMap
  | map (kvs : List (GoString × Value))
  | unsupported (goType : String)

/-- Contents of one `map[string]interface{}` object. -/
abbrev Values := List (GoString × Value)

/-- Map index expression `m[k]` with the comma-ok result. -/
def lookup {κ α : Type} [DecidableEq κ] (k : κ) : List (κ × α) → Option α
  | [] => none
  | (k', v) :: rest => if k' = k then some v else lookup k rest

/-- Map assignment `m[k] = v`. -/
def insert {κ α : Type} [DecidableEq κ] (k : κ) (v : α) : List (κ × α) → List (κ × α)
  | [] => [(k, v)]
  | (k', v') :: rest => if k' = k then (k, v) :: rest else (k', v') :: insert k v rest

/-- Builtin `delete(m, k)`. -/
def erase {κ α : Type} [DecidableEq κ] (k : κ) : List (κ × α) → List (κ × α)
  | [] => []
  | (k', v') :: rest => if k' = k then erase k rest else (k', v') :: erase k rest

/-- The loop `for k, v := range src { dst[k] = v }`. -/
def insertAll {κ α : Type} [DecidableEq κ] (dst src : List (κ × α)) : List (κ × α) :=
  src.foldl (fun m kv => insert kv.1 kv.2 m) dst

/-- The keys of a map. -/
def keys {κ α : Type} (m : List (κ × α)) : List κ := m.map Prod.fst

/-! ## JSON documents -/

/-- A JSON document as the decoder sees it; a number is the exact value of its literal, a
string the bytes of its text. -/
inductive Json where
  | null
  | bool (b : Bool)
  | number (q : ℚ)
  | string (s : GoString)
  | array (xs : List Json)
  | object (kvs : List (GoString × Json))

/-- A rational has a finite decimal expansion, so that a JSON number literal can spell
it. -/
def IsDecimal (q : ℚ) : Prop := ∃ k : Nat, q.den ∣ 10 ^ k

mutual
/-- A document that JSON text can carry and the decoder reads back: every number is a
decimal, every string and key is valid UTF-8, and arrays and objects are nested at most
`depth` deep. -/
def Json.wellFormed : Json → Nat → Prop
  | .null, _ => True
  | .bool _, _ => True
  | .number q, _ => IsDecimal q
  | .string s, _ => toValidUTF8 s = s
  | .array xs, depth =>
    match depth with
    | 0 => False
    | inner + 1 => Json.wellFormedList xs inner
  | .object kvs, depth =>
    match depth with
    | 0 => False
    | inner + 1 => Json.wellFormedMembers kvs inner
/-- Every element is well formed. -/
def Json.wellFormedList : List Json → Nat → Prop
  | [], _ => True
  | j :: js, depth => j.wellFormed depth ∧ Json.wellFormedList js depth
/-- Every member has a valid key and a well-formed value. -/
def Json.wellFormedMembers : List (GoString × Json) → Nat → Prop
  | [], _ => True
  | (k, j) :: kvs, depth =>
    toValidUTF8 k = k ∧ j.wellFormed depth ∧ Json.wellFormedMembers kvs depth
end

/-- A finite rational is a binary64 value: `m * 2^e` with `|m| < 2^53` and
`-1074 ≤ e ≤ 971`. That is, the denominator divides `2^1074`, and the numerator, with as
many factors 2 taken out as it has, up to 971, is below `2^53` (`1 <<< n` is `2^n`). -/
def IsFloat64 (x : ℚ) : Prop :=
  (1 <<< 1074) % x.den = 0 ∧ x.num.natAbs / Nat.gcd x.num.natAbs (1 <<< 971) < 1 <<< 53

instance (x : ℚ) : Decidable (IsFloat64 x) := by
  unfold IsFloat64; infer_instance

/-- The parts of the Go runtime and of `encoding/json` that work on bytes, over a type `B`
of byte strings: `len`, the conversion `[]byte(s)`, the writer and the parser of JSON text
with the parser's limit on nesting (`maxDepth`, 10000 in `encoding/json`), and `strconv`'s
shortest decimal for a float (`formatFloat bitSize x`) and nearest binary64 for a decimal
(`parseFloat`, `none` when out of range). -/
structure Lib (B : Type) where
  len : B → Nat
  maxDepth : Nat
  ofString : String → B
  render : Json → B
  parse : B → Except String Json
  formatFloat : Nat → ℚ → ℚ
  parseFloat : ℚ → Option ℚ

/-- What the documentation of `encoding/json` and `strconv` promises of the byte layer:
parsing the text written for a well-formed document, nested no deeper than the parser
allows, gives the document back; the shortest decimal of a binary64 value is a decimal and
parses back to that value. -/
structure Lib.Lawful {B : Type} (lib : Lib B) : Prop where
  parse_render : ∀ j, j.wellFormed lib.maxDepth → lib.parse (lib.render j) = .ok j
  formatFloat_decimal : ∀ x, IsFloat64 x → IsDecimal (lib.formatFloat 64 x)
  parseFloat_formatFloat : ∀ x, IsFloat64 x → lib.parseFloat (lib.formatFloat 64 x) = some x

/-- Marshal's float encoder: non-finite values are an UnsupportedValueError. -/
def marshalFloat {B : Type} (lib : Lib B) (bitSize : Nat) : GoFloat → Except String Json
  | .num x => .ok (.number (lib.formatFloat bitSize x))
  | .posInf => .error "json: unsupported value: +Inf"
  | .negInf => .error "json: unsupported value: -Inf"
  | .nan => .error "json: unsupported value: NaN"

mutual
/-- The type switch of `json.Marshal`: the JSON kind written for each Go dynamic type. A
string is written with its invalid UTF-8 coerced. -/
def marshalValue {B : Type} (lib : Lib B) : Value → Except String Json
  | .nil => .ok .null
  | .bool b => .ok (.bool b)
  | .int n => .ok (.number n)
  | .int64 n => .ok (.number n)
  | .float32 f => marshalFloat lib 32 f
  | .float64 f => marshalFloat lib 64 f
  | .string s => .ok (.string (toValidUTF8 s))
  | .nilSlice => .ok .null
  | .slice xs =>
    match marshalList lib xs with
    | .ok js => .ok (.array js)
    | .error e => .error e
  | .nilMap => .ok .null
  | .map kvs =>
    match marshalMembers lib kvs with
    | .ok js => .ok (.object js)
    | .error e => .error e
  | .unsupported t => .error ("json: unsupported type: " ++ t)
/-- Elements of a slice, in order; the first error aborts. -/
def marshalList {B : Type} (lib : Lib B) : List Value → Except String (List Json)
  | [] => .ok []
  | v :: vs =>
    match marshalValue lib v with
    | .error e => .error e
    | .ok j =>
      match marshalList lib vs with
      | .ok js => .ok (j :: js)
      | .error e => .error e
/-- Members of a map, each key written like a string; the first error aborts. -/
def marshalMembers {B : Type} (lib : Lib B) :
    List (GoString × Value) → Except String (List (GoString × Json))
  | [] => .ok []
  | (k, v) :: kvs =>
    match marshalValue lib v with
    | .error e => .error e
    | .ok j =>
      match marshalMembers lib kvs with
      | .ok js => .ok ((toValidUTF8 k, j) :: js)
      | .error e => .error e
end

/-- The decoder keeps the first error it meets and goes on (`saveError`). -/
def firstError (e1 e2 : Option String) : Option String :=
  match e1 with
  | some e => some e
  | none => e2

mutual
/-- Decoding into an `interface{}`: the Go value stored for each JSON kind. A number becomes a
`float64`; one out of range leaves nil and records an UnmarshalTypeError. -/
def decodeValue {B : Type} (lib : Lib B) : Json → Value × Option String
  | .null => (.nil, none)
  | .bool b => (.bool b, none)
  | .number q =>
    match lib.parseFloat q with
    | some x => (.float64 (.num x), none)
    | none => (.nil, some "json: cannot unmarshal number into Go value of type float64")
  | .string s => (.string s, none)
  | .array js =>
    let r := decodeList lib js
    (.slice r.1, r.2)
  | .object kvs =>
    let r := decodeMembers lib kvs
    (.map (insertAll [] r.1), r.2)
/-- Elements of an array, in order. -/
def decodeList {B : Type} (lib : Lib B) : List Json → List Value × Option String
  | [] => ([], none)
  | j :: js =>
    let r := decodeValue lib j
    let rs := decodeList lib js
    (r.1 :: rs.1, firstError r.2 rs.2)
/-- Members of an object, in order, each to be assigned into the target map. -/
def decodeMembers {B : Type} (lib : Lib B) :
    List (GoString × Json) → List (GoString × Value) × Option String
  | [] => ([], none)
  | (k, j) :: kvs =>
    let r := decodeValue lib j
    let rs := decodeMembers lib kvs
    ((k, r.1) :: rs.1, firstError r.2 rs.2)
end

mutual
/-- The values decoding into an `interface{}` can produce, within a nesting of `depth`: nil,
booleans, finite `float64` numbers, strings that are valid UTF-8, non-nil slices of such
values and non-nil maps, with distinct keys that are valid UTF-8, of such values; a slice or
a map takes one level of nesting. -/
def Value.native : Value → Nat → Bool
  | .nil, _ => true
  | .bool _, _ => true
  | .float64 (.num x), _ => decide (IsFloat64 x)
  | .string s, _ => decide (toValidUTF8 s = s)
  | .slice xs, depth =>
    match depth with
    | 0 => false
    | inner + 1 => nativeList xs inner
  | .map kvs, depth =>
    match depth with
    | 0 => false
    | inner + 1 => nativeMembers kvs inner && decide (keys kvs).Nodup
  | _, _ => false
/-- Every element is native. -/
def nativeList : List Value → Nat → Bool
  | [], _ => true
  | v :: vs, depth => v.native depth && nativeList vs depth
/-- Every member has a valid key and a native value. -/
def nativeMembers : List (GoString × Value) → Nat → Bool
  | [], _ => true
  | (k, v) :: kvs, depth =>
    decide (toValidUTF8 k = k) && v.native depth && nativeMembers kvs depth
end

/-- Go's `json.Unmarshal(d, &m)` for a target `m` of type `map[string]interface{}`: the
whole text is checked first (a syntax error leaves `m` alone), `null` sets `m` to nil, an
object assigns its members into `m`, any other document is an UnmarshalTypeError. -/
def Unmarshal {B : Type} (lib : Lib B) (d : B) (m : Values) : Values × Option String :=
  match lib.parse d with
  | .error e => (m, some e)
  | .ok .null => ([], none)
  | .ok (.object kvs) =>
    let r := decodeMembers lib kvs
    (insertAll m r.1, r.2)
  | .ok _ => (m, some "json: cannot unmarshal into Go value of type map[string]interface {}")

/-- Go's `json.Marshal(m)` for a non-nil `m` of type `map[string]interface{}`. -/
def Marshal {B : Type} (lib : Lib B) (m : Values) : Except String B :=
  match marshalMembers lib m with
  | .ok js => .ok (lib.render (.object js))
  | .error e => .error e

/-! ## Errors, the pool and the world -/

/-- An `error` value, by the place that made it: `errors.New` in this repository, the JSON
library, or redigo (pool, connection, reply). -/
inductive Error where
  | new (text : String)
  | json (text : String)
  | redis (text : String)
  deriving DecidableEq

/-- A command sent with `conn.Do`. -/
inductive Command (B : Type) where
  | PING
  | GET (key : String)
  | SETEX (key : String) (seconds : Int) (value : B)
  | DEL (key : String)

/-- The first result of `conn.Do`, an `interface{}`: nil, a `[]byte`, a Go `string`, a
`redis.Error`, or a value of another type (an integer, an array). -/
inductive Reply (B : Type) where
  | nil
  | bytes (b : B)
  | string (s : String)
  | error (text : String)
  | other (goType : String)

/-- What the code calls on a `*redis.Pool`, over the state `σ` of pool and server:
`Get` borrows a connection and yields its `conn.Err()`, `Do` sends a command on it, `Close`
gives it back. -/
structure Pool (σ B : Type) where
  Get : σ → Option String × σ
  Do : σ → Command B → (Reply B × Option String) × σ
  Close : σ → σ

/-- What a run leaves behind outside the program's memory. -/
inductive Event (B : Type) where
  | borrow
  | command (c : Command B)
  | release
  | println (key : GoString) (value : Value)
  | printf (err : Error)

/-- The state the program runs in: the package variables `tokenName` and `maxAge`, the map
objects with the next free address, the state of pool and server, and the events so far. -/
structure World (σ B : Type) where
  tokenName : String
  maxAge : Int
  heap : Nat → Values
  nextRef : Nat
  server : σ
  trace : List (Event B)

/-- Overwrite the contents of the map object at `ref`. -/
def World.setMap {σ B : Type} (w : World σ B) (ref : Nat) (m : Values) : World σ B :=
  { w with heap := Function.update w.heap ref m }

/-- Record an event. -/
def World.emit {σ B : Type} (w : World σ B) (e : Event B) : World σ B :=
  { w with trace := w.trace ++ [e] }

/-! ## session.go -/

def DefaultTokenName : String := "X-USER-TOKEN"

def DefaultMaxAge : Int := 30 * 24 * 36000

/-- The world at program start: the package variables hold their initialisers. -/
def World.init {σ B : Type} (server : σ) : World σ B :=
  { tokenName := DefaultTokenName, maxAge := DefaultMaxAge, heap := fun _ => [],
    nextRef := 0, server := server, trace := [] }

def SetTokenName {σ B : Type} (name : String) (w : World σ B) : World σ B :=
  { w with tokenName := name }

def SetMaxAge {σ B : Type} (age : Int) (w : World σ B) : World σ B :=
  { w with maxAge := age }

/-! ## redis/redis.go: the store -/

def DefaultIdleTime : Int := 240

def DefaultExpire : Int := 30 * 86400

def DefaultMaxLength : Int := 4096

def DefaultPrefix : String := "sess_"

/-- RedisStore stores sessions in a redis backend. -/
structure RedisStore (σ B : Type) where
  Pool : Pool σ B
  DefaultMaxAge : Int
  maxLength : Int
  keyPrefix : String

/-- The struct `TokenSession`. `Values` is the address of the session's map object; `Store`
is the `Store` interface value, held as the `RedisStore` behind it, the one implementation of
the interface in the repository. -/
structure TokenSession (σ B : Type) where
  Token : String
  MaxAge : Int
  Values : Nat
  Store : RedisStore σ B

namespace TokenSession

variable {σ B : Type}

/-- Serialize to JSON: copy the map, marshal the copy. -/
def Serialize (lib : Lib B) (s : TokenSession σ B) (w : World σ B) : Except Error B × World σ B :=
  let m := insertAll [] (w.heap s.Values)
  match Marshal lib m with
  | .ok b => (.ok b, w)
  | .error e => (.error (.json e), w)

/-- Deserialize from JSON: decode into a fresh map, report a failure, else assign every
decoded key into the session's map. -/
def Deserialize (lib : Lib B) (s : TokenSession σ B) (d : B) (w : World σ B) : Option Error × World σ B :=
  let r := Unmarshal lib d []
  match r.2 with
  | some e => (some (.json e), w.emit (.printf (.json e)))
  | none => (none, w.setMap s.Values (insertAll (w.heap s.Values) r.1))

def Set (s : TokenSession σ B) (key : GoString) (value : Value) (w : World σ B) : World σ B :=
  let w1 := w.emit (.println key value)
  w1.setMap s.Values (insert key value (w1.heap s.Values))

def Get (s : TokenSession σ B) (key : GoString) (w : World σ B) : (Value × Bool) × World σ B :=
  match lookup key (w.heap s.Values) with
  | some value => ((value, true), w)
  | none => ((.nil, false), w)

def MustGet (s : TokenSession σ B) (key : GoString) (w : World σ B) : Value × World σ B :=
  match lookup key (w.heap s.Values) with
  | some value => (value, w)
  | none => (.nil, w)

def MustGetInt (s : TokenSession σ B) (key : GoString) (default_value : Int) (w : World σ B) : Int × World σ B :=
  let r := s.MustGet key w
  match r.1 with
  | .int type_value => (type_value, r.2)
  | _ => (default_value, r.2)

def MustGetInt64 (s : TokenSession σ B) (key : GoString) (default_value : Int) (w : World σ B) : Int × World σ B :=
  let r := s.MustGet key w
  match r.1 with
  | .int64 type_value => (type_value, r.2)
  | _ => (default_value, r.2)

def MustGetString (s : TokenSession σ B) (key : GoString) (default_value : GoString) (w : World σ B) : GoString × World σ B :=
  let r := s.MustGet key w
  match r.1 with
  | .string type_value => (type_value, r.2)
  | _ => (default_value, r.2)

def MustGetFloat32 (s : TokenSession σ B) (key : GoString) (default_value : GoFloat) (w : World σ B) : GoFloat × World σ B :=
  let r := s.MustGet key w
  match r.1 with
  | .float32 type_value => (type_value, r.2)
  | _ => (default_value, r.2)

def MustGetFloat64 (s : TokenSession σ B) (key : GoString) (default_value : GoFloat) (w : World σ B) : GoFloat × World σ B :=
  let r := s.MustGet key w
  match r.1 with
  | .float64 type_value => (type_value, r.2)
  | _ => (default_value, r.2)

end TokenSession

/-- NewTokenSession: the token, the package variable `maxAge`, a new empty map, the store. -/
def NewTokenSession {σ B : Type} (token : String) (store : RedisStore σ B) (w : World σ B) : TokenSession σ B × World σ B :=
  ({ Token := token, MaxAge := w.maxAge, Values := w.nextRef, Store := store },
   { w with heap := Function.update w.heap w.nextRef [], nextRef := w.nextRef + 1 })

namespace RedisStore

variable {σ B : Type}

/-- SetMaxLength sets RedisStore.maxLength if the `l` argument is greater or equal 0. -/
def SetMaxLength (s : RedisStore σ B) (l : Int) : RedisStore σ B :=
  if l ≥ 0 then { s with maxLength := l } else s

/-- SetKeyPrefix set the prefix. -/
def SetKeyPrefix (s : RedisStore σ B) (p : String) : RedisStore σ B :=
  { s with keyPrefix := p }

/-- The statement `conn := s.Pool.Get()`, giving `conn.Err()`. -/
def borrow (s : RedisStore σ B) (w : World σ B) : Option String × World σ B :=
  let r := s.Pool.Get w.server
  (r.1, { w with server := r.2, trace := w.trace ++ [.borrow] })

/-- The call `conn.Do(c)`. -/
def send (s : RedisStore σ B) (c : Command B) (w : World σ B) : (Reply B × Option String) × World σ B :=
  let r := s.Pool.Do w.server c
  (r.1, { w with server := r.2, trace := w.trace ++ [.command c] })

/-- The deferred `conn.Close()`, run when the function returns. -/
def release (s : RedisStore σ B) (w : World σ B) : World σ B :=
  { w with server := s.Pool.Close w.server, trace := w.trace ++ [.release] }

/-- Internal ping against the server to check if it is alive. -/
def ping (s : RedisStore σ B) (w : World σ B) : (Bool × Option Error) × World σ B :=
  let w1 := (s.borrow w).2
  let r := s.send .PING w1
  match r.1 with
  | (_, some err) => ((false, some (.redis err)), s.release r.2)
  | (.nil, none) => ((false, none), s.release r.2)
  | (.string data, none) => ((decide (data = "PONG"), none), s.release r.2)
  | (_, none) => ((false, none), s.release r.2)

/-- Helper `redis.Bytes(reply, nil)` of redigo. -/
def replyBytes (lib : Lib B) : Reply B → Except Error B
  | .bytes b => .ok b
  | .string s => .ok (lib.ofString s)
  | .nil => .error (.redis "redigo: nil returned")
  | .error text => .error (.redis text)
  | .other t => .error (.redis ("redigo: unexpected type for Bytes, got type " ++ t))

/-- Load reads the session from redis. -/
def Load (lib : Lib B) (s : RedisStore σ B) (session : TokenSession σ B) (w : World σ B) :
    Option Error × TokenSession σ B × World σ B :=
  let c := s.borrow w
  match c.1 with
  | some err => (some (.redis err), session, s.release c.2)
  | none =>
    let r := s.send (.GET (s.keyPrefix ++ session.Token)) c.2
    match r.1 with
    | (_, some err) => (some (.redis err), session, s.release r.2)
    | (.nil, none) => (none, session, s.release r.2)
    | (data, none) =>
      match replyBytes lib data with
      | .error err => (some err, session, s.release r.2)
      | .ok b =>
        let d := session.Deserialize lib b r.2
        (d.1, session, s.release d.2)

/-- Save stores the session in redis. -/
def Save (lib : Lib B) (s : RedisStore σ B) (session : TokenSession σ B) (w : World σ B) :
    Option Error × TokenSession σ B × World σ B :=
  let z := session.Serialize lib w
  match z.1 with
  | .error err => (some err, session, z.2)
  | .ok b =>
    if s.maxLength ≠ 0 ∧ (lib.len b : Int) > s.maxLength then
      (some (.new "RedisStore: the value to store is too big"), session, z.2)
    else
      let c := s.borrow z.2
      match c.1 with
      | some err => (some (.redis err), session, s.release c.2)
      | none =>
        let age := if session.MaxAge = 0 then s.DefaultMaxAge else session.MaxAge
        let r := s.send (.SETEX (s.keyPrefix ++ session.Token) age b) c.2
        (r.1.2.map .redis, session, s.release r.2)

/-- Delete removes the key from redis. -/
def Delete (s : RedisStore σ B) (session : TokenSession σ B) (w : World σ B) :
    Option Error × TokenSession σ B × World σ B :=
  let w1 := (s.borrow w).2
  let r := s.send (.DEL (s.keyPrefix ++ session.Token)) w1
  match r.1.2 with
  | some err => (some (.redis err), session, s.release r.2)
  | none => (none, session, s.release r.2)

end RedisStore

/-- NewRedisStoreWithPool instantiates a RedisStore with a pool passed in, pings, and returns
the store together with the ping's error. -/
def NewRedisStoreWithPool {σ B : Type} (pool : Pool σ B) (w : World σ B) :
    (RedisStore σ B × Option Error) × World σ B :=
  let rs : RedisStore σ B :=
    { Pool := pool, DefaultMaxAge := DefaultExpire, maxLength := DefaultMaxLength,
      keyPrefix := DefaultPrefix }
  let r := rs.ping w
  ((rs, r.1.2), r.2)

/-- One call of a configuration method of a store. -/
inductive Setter where
  | SetMaxLength (l : Int)
  | SetKeyPrefix (p : String)

/-- Run one configuration call on a store. -/
def Setter.run {σ B : Type} (s : RedisStore σ B) : Setter → RedisStore σ B
  | .SetMaxLength l => s.SetMaxLength l
  | .SetKeyPrefix p => s.SetKeyPrefix p

/-- The loop `for k := range s.Values { delete(s.Values, k) }`. -/
def clear (m : Values) : Values :=
  (keys m).foldl (fun acc k => erase k acc) m

namespace TokenSession

variable {σ B : Type}

/-- Method `Load`: the store loads into the receiver's copy of the struct. -/
def Load (lib : Lib B) (s : TokenSession σ B) (w : World σ B) : Option Error × World σ B :=
  let r := s.Store.Load lib s w
  (r.1, r.2.2)

/-- Method `Save`. -/
def Save (lib : Lib B) (s : TokenSession σ B) (w : World σ B) : Option Error × World σ B :=
  let r := s.Store.Save lib s w
  (r.1, r.2.2)

/-- Method `Delete`: delete in the store, then, unless that failed, clear the session
values. -/
def Delete (s : TokenSession σ B) (w : World σ B) : Option Error × World σ B :=
  let r := s.Store.Delete s w
  match r.1 with
  | some err => (some err, r.2.2)
  | none => (none, r.2.2.setMap r.2.1.Values (clear (r.2.2.heap r.2.1.Values)))

end TokenSession

/-! ## A concrete library and a concrete server

An instance of `Lib` and two instances of `Pool`, on which the definitions above can be
run. -/

/-- A byte string as the JSON parser reads it: the text of a document, or text that is not
JSON. -/
inductive Payload where
  | document (j : Json)
  | malformed (text : String)

mutual
/-- Number of nodes of a document. -/
def Json.size : Json → Nat
  | .array xs => 1 + Json.sizeList xs
  | .object kvs => 1 + Json.sizeMembers kvs
  | _ => 1
/-- Nodes of a list of documents. -/
def Json.sizeList : List Json → Nat
  | [] => 0
  | j :: js => j.size + Json.sizeList js
/-- Nodes of the members of an object. -/
def Json.sizeMembers : List (GoString × Json) → Nat
  | [] => 0
  | (_, j) :: kvs => j.size + Json.sizeMembers kvs
end

mutual
/-- Arrays and objects are nested at most `depth` deep. -/
def Json.within : Json → Nat → Bool
  | .array xs, depth =>
    match depth with
    | 0 => false
    | inner + 1 => Json.withinList xs inner
  | .object kvs, depth =>
    match depth with
    | 0 => false
    | inner + 1 => Json.withinMembers kvs inner
  | _, _ => true
/-- Every element stays within the depth. -/
def Json.withinList : List Json → Nat → Bool
  | [], _ => true
  | j :: js, depth => j.within depth && Json.withinList js depth
/-- Every member's value stays within the depth. -/
def Json.withinMembers : List (GoString × Json) → Nat → Bool
  | [], _ => true
  | (_, j) :: kvs, depth => j.within depth && Json.withinMembers kvs depth
end

/-- A value nested `n` slices deep. -/
def nested : Nat → Value
  | 0 => .nil
  | n + 1 => .slice [nested n]

/-- The document of `nested n`. -/
def nestedJson : Nat → Json
  | 0 => .null
  | n + 1 => .array [nestedJson n]

/-- A library over `Payload`: a document is written as itself and read back unless it is
nested deeper than 10000, a float is spelled by its exact value, a decimal of magnitude below
`2^1024` is read as itself and a larger one is out of range, the length of a document is its
number of nodes. -/
def exactLib : Lib Payload where
  maxDepth := 10000
  len
    | .document j => j.size
    | .malformed text => text.length
  ofString := .malformed
  render := .document
  parse
    | .document j => if j.within 10000 then .ok j else .error "exceeded max depth"
    | .malformed text => .error ("invalid character in " ++ text)
  formatFloat := fun _ x => x
  parseFloat := fun q => if q.num.natAbs < q.den <<< 1024 then some q else none

/-- A server kept in memory: the state is the stored keys, expiry is not tracked, every
connection is healthy. -/
def memPool : Pool (List (String × Payload)) Payload where
  Get st := (none, st)
  Do st
    | .PING => ((.string "PONG", none), st)
    | .GET key =>
      match lookup key st with
      | some b => ((.bytes b, none), st)
      | none => ((.nil, none), st)
    | .SETEX key _ value => ((.string "OK", none), insert key value st)
    | .DEL key => ((.other "int64", none), erase key st)
  Close st := st

/-- A server that cannot be reached: the borrowed connection carries the dial error and
every command returns it. -/
def downPool : Pool (List (String × Payload)) Payload where
  Get st := (some "dial tcp: connection refused", st)
  Do st _ := ((.nil, some "dial tcp: connection refused"), st)
  Close st := st

/-- A store on `memPool` as `NewRedisStoreWithPool` builds it. -/
def memStore : RedisStore (List (String × Payload)) Payload :=
  (NewRedisStoreWithPool memPool (World.init [])).1.1

/-- A store on `downPool` as `NewRedisStoreWithPool` builds it. -/
def downStore : RedisStore (List (String × Payload)) Payload :=
  (NewRedisStoreWithPool downPool (World.init [])).1.1

/-- A world with an empty server in which the map object at address 0 holds `m`. -/
def worldWith (m : Values) : World (List (String × Payload)) Payload :=
  { (World.init []) with heap := Function.update (fun _ => []) 0 m, nextRef := 1 }

/-- A session on `store` with token "t" whose map is the object at address 0. -/
def sessionOn (store : RedisStore (List (String × Payload)) Payload) (maxAge : Int) :
    TokenSession (List (String × Payload)) Payload :=
  { Token := "t", MaxAge := maxAge, Values := 0, Store := store }

/-! ## Facts about maps -/

section Maps

variable {κ α : Type} [DecidableEq κ]

theorem lookup_insert_self (k : κ) (v : α) (m : List (κ × α)) :
    lookup k (insert k v m) = some v := by
  induction m with
  | nil => simp [insert, lookup]
  | cons p rest ih =>
    obtain ⟨k', v'⟩ := p
    by_cases h : k' = k <;> simp [insert, lookup, h, ih]

theorem lookup_insert_ne {k k' : κ} (h : k' ≠ k) (v : α) (m : List (κ × α)) :
    lookup k (insert k' v m) = lookup k m := by
  induction m with
  | nil => simp [insert, lookup, h]
  | cons p rest ih =>
    obtain ⟨k1, v1⟩ := p
    by_cases h1 : k1 = k'
    · subst h1; simp [insert, lookup, h]
    · simp only [insert, h1, if_false, lookup]
      rw [ih]

theorem lookup_eq_none_of_not_mem {k : κ} {m : List (κ × α)} (h : k ∉ keys m) :
    lookup k m = none := by
  induction m with
  | nil => rfl
  | cons p rest ih =>
    obtain ⟨k', v'⟩ := p
    simp only [keys, List.map_cons, List.mem_cons, not_or] at h
    have h1 : k' ≠ k := fun e => h.1 e.symm
    simp only [lookup, h1, if_false]
    exact ih h.2

theorem keys_insert_of_mem {k : κ} (v : α) {m : List (κ × α)} (h : k ∈ keys m) :
    keys (insert k v m) = keys m := by
  induction m with
  | nil => simp [keys] at h
  | cons p rest ih =>
    obtain ⟨k', v'⟩ := p
    by_cases h1 : k' = k
    · simp [insert, keys, h1]
    · have h2 : k ∈ keys rest := by
        simp only [keys, List.map_cons, List.mem_cons] at h
        rcases h with h | h
        · exact absurd h.symm h1
        · exact h
      have := ih h2
      simp only [keys] at this
      simp [insert, keys, h1, this]

theorem insert_of_not_mem {k : κ} (v : α) {m : List (κ × α)} (h : k ∉ keys m) :
    insert k v m = m ++ [(k, v)] := by
  induction m with
  | nil => rfl
  | cons p rest ih =>
    obtain ⟨k', v'⟩ := p
    simp only [keys, List.map_cons, List.mem_cons, not_or] at h
    have h1 : k' ≠ k := fun e => h.1 e.symm
    simp only [insert, h1, if_false, List.cons_append]
    rw [ih h.2]

theorem keys_insert_nodup (k : κ) (v : α) {m : List (κ × α)} (h : (keys m).Nodup) :
    (keys (insert k v m)).Nodup := by
  by_cases hk : k ∈ keys m
  · rw [keys_insert_of_mem v hk]; exact h
  · rw [insert_of_not_mem v hk]
    simp only [keys, List.map_append, List.map_cons, List.map_nil]
    rw [List.nodup_append]
    refine ⟨h, List.nodup_singleton k, ?_⟩
    intro a ha hb
    simp only [List.mem_singleton] at hb
    subst hb
    exact hk ha

theorem keys_insertAll_nodup (src : List (κ × α)) :
    ∀ dst : List (κ × α), (keys dst).Nodup → (keys (insertAll dst src)).Nodup := by
  induction src with
  | nil => intro dst h; exact h
  | cons p rest ih =>
    intro dst h
    exact ih _ (keys_insert_nodup p.1 p.2 h)

theorem insertAll_eq_append (src : List (κ × α)) :
    ∀ dst : List (κ × α), (keys (dst ++ src)).Nodup → insertAll dst src = dst ++ src := by
  induction src with
  | nil => intro dst _; simp [insertAll]
  | cons p rest ih =>
    intro dst h
    obtain ⟨k, v⟩ := p
    have hk : k ∉ keys dst := by
      intro hmem
      simp only [keys, List.map_append, List.map_cons] at h hmem
      rw [List.nodup_append] at h
      exact h.2.2 hmem (List.mem_cons_self _ _)
    have h' : (keys ((dst ++ [(k, v)]) ++ rest)).Nodup := by
      simpa [List.append_assoc] using h
    have := ih (dst ++ [(k, v)]) h'
    simp only [insertAll, List.foldl_cons] at this ⊢
    rw [insert_of_not_mem v hk, this]
    simp [List.append_assoc]

theorem insertAll_nil_eq {m : List (κ × α)} (h : (keys m).Nodup) : insertAll [] m = m := by
  have := insertAll_eq_append m [] (by simpa using h)
  simpa using this

theorem lookup_insertAll (src : List (κ × α)) :
    ∀ dst : List (κ × α), (keys src).Nodup → ∀ k,
      lookup k (insertAll dst src) =
        match lookup k src with
        | some v => some v
        | none => lookup k dst := by
  induction src with
  | nil => intro dst _ k; simp [insertAll, lookup]
  | cons p rest ih =>
    intro dst h k
    obtain ⟨k1, v1⟩ := p
    simp only [keys, List.map_cons, List.nodup_cons] at h
    have hrest := ih (insert k1 v1 dst) h.2 k
    simp only [insertAll, List.foldl_cons] at hrest ⊢
    rw [hrest]
    by_cases hk : k1 = k
    · subst hk
      rw [lookup_eq_none_of_not_mem h.1]
      simp [lookup, lookup_insert_self]
    · simp only [lookup, hk, if_false]
      rw [lookup_insert_ne hk]

theorem lookup_insertAll_cases (src dst : List (κ × α)) (h : (keys src).Nodup) (k : κ) :
    (∀ v, lookup k src = some v → lookup k (insertAll dst src) = some v) ∧
    (lookup k src = none → lookup k (insertAll dst src) = lookup k dst) := by
  have hl := lookup_insertAll src dst h k
  constructor
  · intro v hv
    rw [hl, hv]
  · intro hv
    rw [hl, hv]

theorem keys_erase_subset (k : κ) (m : List (κ × α)) :
    ∀ a, a ∈ keys (erase k m) → a ∈ keys m ∧ a ≠ k := by
  induction m with
  | nil => intro a h; simp [erase, keys] at h
  | cons p rest ih =>
    obtain ⟨k', v'⟩ := p
    intro a h
    by_cases h1 : k' = k
    · simp only [erase, h1, if_true] at h
      have := ih a h
      exact ⟨by simp only [keys, List.map_cons, List.mem_cons]; exact Or.inr this.1, this.2⟩
    · simp only [erase, h1, if_false, keys, List.map_cons, List.mem_cons] at h
      rcases h with h | h
      · subst h; exact ⟨by simp [keys], h1⟩
      · have := ih a h
        exact ⟨by simp only [keys, List.map_cons, List.mem_cons]; exact Or.inr this.1, this.2⟩

theorem foldl_erase_eq_nil (ks : List κ) :
    ∀ m : List (κ × α), (∀ a, a ∈ keys m → a ∈ ks) →
      ks.foldl (fun acc k => erase k acc) m = [] := by
  induction ks with
  | nil =>
    intro m h
    cases m with
    | nil => rfl
    | cons p rest => exact absurd (h p.1 (by simp [keys])) (List.not_mem_nil _)
  | cons k ks ih =>
    intro m h
    simp only [List.foldl_cons]
    apply ih
    intro a ha
    have := keys_erase_subset k m a ha
    rcases List.mem_cons.mp (h a this.1) with h1 | h1
    · exact absurd h1 this.2
    · exact h1

theorem clear_eq_nil (m : Values) : clear m = [] :=
  foldl_erase_eq_nil (keys m) m (fun _ h => h)

end Maps

/-! ## The store: size limit, expiry, configuration -/

section Store

variable {σ B : Type}

theorem Serialize_world (lib : Lib B) (session : TokenSession σ B) (w : World σ B) :
    (session.Serialize lib w).2 = w := by
  unfold TokenSession.Serialize
  simp only []
  split <;> rfl

/-- C1: when the session's mapping serializes to `b`, `Save` returns the "value to store is
too big" error exactly when `maxLength` is nonzero and `len(b) > maxLength`; in that case the
world is left as it was (no connection borrowed, no command sent, nothing else touched); and
with `maxLength = 0` or `len(b) ≤ maxLength` the error is never the size error. -/
theorem Save_too_big_iff (lib : Lib B) (s : RedisStore σ B) (session : TokenSession σ B)
    (w : World σ B) (b : B) (hb : (session.Serialize lib w).1 = .ok b) :
    ((s.Save lib session w).1 = some (.new "RedisStore: the value to store is too big") ↔
        (s.maxLength ≠ 0 ∧ (lib.len b : Int) > s.maxLength)) ∧
    ((s.maxLength ≠ 0 ∧ (lib.len b : Int) > s.maxLength) → (s.Save lib session w).2.2 = w) ∧
    ((s.maxLength = 0 ∨ (lib.len b : Int) ≤ s.maxLength) →
        (s.Save lib session w).1 ≠ some (.new "RedisStore: the value to store is too big")) := by
  have hw := Serialize_world lib session w
  have key : (s.Save lib session w).1 = some (.new "RedisStore: the value to store is too big") ↔
      (s.maxLength ≠ 0 ∧ (lib.len b : Int) > s.maxLength) := by
    unfold RedisStore.Save
    simp only [hb]
    by_cases hc : s.maxLength ≠ 0 ∧ (lib.len b : Int) > s.maxLength
    · simp only [if_pos hc, true_iff]
      exact hc
    · simp only [if_neg hc, hc, iff_false]
      cases hg : (s.borrow (session.Serialize lib w).2).1 with
      | none =>
        simp only []
        cases (s.send (.SETEX (s.keyPrefix ++ session.Token)
          (if session.MaxAge = 0 then s.DefaultMaxAge else session.MaxAge) b)
          (s.borrow (session.Serialize lib w).2).2).1.2 <;> simp
      | some e => simp
  refine ⟨key, ?_, ?_⟩
  · intro hc
    unfold RedisStore.Save
    simp only [hb, if_pos hc, hw]
  · intro hc h
    have := key.mp h
    rcases hc with hc | hc
    · exact this.1 hc
    · exact absurd this.2 (not_lt.mpr hc)

/-- C2: when the mapping serializes to `b`, the size check passes and the borrowed connection
has no error, `Save` borrows once, sends exactly one command, `SETEX keyPrefix+Token ttl b`, and
releases; `ttl` is the store's `DefaultMaxAge` when the session's `MaxAge` is 0 and `MaxAge`
itself otherwise (so for `MaxAge = N > 0`); `Save` returns the error of that command. -/
theorem Save_issues_one_SETEX (lib : Lib B) (s : RedisStore σ B) (session : TokenSession σ B)
    (w : World σ B) (b : B) (hb : (session.Serialize lib w).1 = .ok b)
    (hsize : ¬ (s.maxLength ≠ 0 ∧ (lib.len b : Int) > s.maxLength))
    (hconn : (s.Pool.Get w.server).1 = none) :
    (s.Save lib session w).2.2.trace = w.trace ++
      [.borrow,
       .command (.SETEX (s.keyPrefix ++ session.Token)
          (if session.MaxAge = 0 then s.DefaultMaxAge else session.MaxAge) b),
       .release] ∧
    (s.Save lib session w).1 =
      (s.Pool.Do (s.Pool.Get w.server).2
        (.SETEX (s.keyPrefix ++ session.Token)
          (if session.MaxAge = 0 then s.DefaultMaxAge else session.MaxAge) b)).1.2.map Error.redis ∧
    (s.Save lib session w).2.2.server =
      s.Pool.Close (s.Pool.Do (s.Pool.Get w.server).2
        (.SETEX (s.keyPrefix ++ session.Token)
          (if session.MaxAge = 0 then s.DefaultMaxAge else session.MaxAge) b)).2 ∧
    (s.Save lib session w).2.2.heap = w.heap ∧
    (session.MaxAge = 0 →
      (if session.MaxAge = 0 then s.DefaultMaxAge else session.MaxAge) = s.DefaultMaxAge) ∧
    (0 < session.MaxAge →
      (if session.MaxAge = 0 then s.DefaultMaxAge else session.MaxAge) = session.MaxAge) := by
  have hw := Serialize_world lib session w
  refine ⟨?_, ?_, ?_, ?_, ?_, ?_⟩
  · unfold RedisStore.Save
    simp only [hb, if_neg hsize, hw, RedisStore.borrow, hconn, RedisStore.send,
      RedisStore.release, List.append_assoc, List.singleton_append, List.cons_append,
      List.nil_append]
  · unfold RedisStore.Save
    simp only [hb, if_neg hsize, hw, RedisStore.borrow, hconn, RedisStore.send]
  · unfold RedisStore.Save
    simp only [hb, if_neg hsize, hw, RedisStore.borrow, hconn, RedisStore.send,
      RedisStore.release]
  · unfold RedisStore.Save
    simp only [hb, if_neg hsize, hw, RedisStore.borrow, hconn, RedisStore.send,
      RedisStore.release]
  · intro h; simp [h]
  · intro h; simp [ne_of_gt h]

theorem Setter_run_maxLength_nonneg (calls : List Setter) :
    ∀ s : RedisStore σ B, 0 ≤ s.maxLength → 0 ≤ (calls.foldl Setter.run s).maxLength := by
  induction calls with
  | nil => intro s h; exact h
  | cons c cs ih =>
    intro s h
    simp only [List.foldl_cons]
    apply ih
    cases c with
    | SetMaxLength l =>
      simp only [Setter.run, RedisStore.SetMaxLength]
      split
      · assumption
      · exact h
    | SetKeyPrefix p => exact h

/-- C10: `SetMaxLength(l)` sets `maxLength` to `l` and nothing else when `l ≥ 0`, and leaves
the whole store as it was when `l < 0` (the method returns nothing, so no error is reported); a
store from `NewRedisStoreWithPool` starts at 4096, and after any sequence of `SetMaxLength` and
`SetKeyPrefix` calls its `maxLength` is still `≥ 0`. -/
theorem SetMaxLength_keeps_maxLength_nonneg :
    (∀ (s : RedisStore σ B) (l : Int), 0 ≤ l →
      s.SetMaxLength l = { s with maxLength := l }) ∧
    (∀ (s : RedisStore σ B) (l : Int), l < 0 → s.SetMaxLength l = s) ∧
    (∀ (pool : Pool σ B) (w : World σ B), (NewRedisStoreWithPool pool w).1.1.maxLength = 4096) ∧
    (∀ (pool : Pool σ B) (w : World σ B) (calls : List Setter),
      0 ≤ (calls.foldl Setter.run (NewRedisStoreWithPool pool w).1.1).maxLength) := by
  refine ⟨?_, ?_, ?_, ?_⟩
  · intro s l h
    simp [RedisStore.SetMaxLength, h]
  · intro s l h
    simp [RedisStore.SetMaxLength, not_le.mpr h]
  · intro pool w
    rfl
  · intro pool w calls
    apply Setter_run_maxLength_nonneg
    show (0 : Int) ≤ DefaultMaxLength
    decide

end Store

/-! ## The session: accessors, Delete, Load, Deserialize -/

section Session

variable {σ B : Type}

/-- C3: the constant `DefaultMaxAge`, which `NewTokenSession` assigns as long as `SetMaxAge` has
not been called, evaluates to 25,920,000, ten times the 2,592,000 seconds of 30 days (the
store's own `DefaultExpire` is 2,592,000). -/
theorem DefaultMaxAge_is_not_30_days :
    DefaultMaxAge = 25920000 ∧
    DefaultMaxAge ≠ 30 * 24 * 3600 ∧
    (NewTokenSession "t" memStore (World.init [])).1.MaxAge = 25920000 ∧
    DefaultExpire = 2592000 := by
  refine ⟨by decide, by decide, by rfl, by decide⟩

theorem RedisStore_Delete_frame (s : RedisStore σ B) (session : TokenSession σ B) (w : World σ B) :
    (s.Delete session w).2.1 = session ∧ (s.Delete session w).2.2.heap = w.heap := by
  unfold RedisStore.Delete
  simp only []
  split <;> simp [RedisStore.release, RedisStore.send, RedisStore.borrow]

/-- C5: for a session bound to a store, if the store's `Delete` returns an error then
`TokenSession.Delete` returns that error and every map object, the session's included, is as
before; if the store's `Delete` succeeds then `TokenSession.Delete` returns no error, the map
object at the session's own address is empty afterwards (so `Get` finds no key), and no other
map object has changed. -/
theorem Delete_clears_only_on_success (s : TokenSession σ B) (w : World σ B) :
    (∀ e, (s.Store.Delete s w).1 = some e →
      (s.Delete w).1 = some e ∧ (s.Delete w).2.heap = w.heap) ∧
    ((s.Store.Delete s w).1 = none →
      (s.Delete w).1 = none ∧
      (s.Delete w).2.heap s.Values = [] ∧
      (∀ key, (s.Get key (s.Delete w).2).1 = (.nil, false)) ∧
      (∀ ref, ref ≠ s.Values → (s.Delete w).2.heap ref = w.heap ref)) := by
  have hf := RedisStore_Delete_frame s.Store s w
  constructor
  · intro e he
    unfold TokenSession.Delete
    simp only [he, true_and]
    exact hf.2
  · intro he
    have hheap : (s.Delete w).2.heap = Function.update w.heap s.Values [] := by
      unfold TokenSession.Delete
      simp only [he, World.setMap, hf.1, hf.2, clear_eq_nil]
    refine ⟨?_, ?_, ?_, ?_⟩
    · unfold TokenSession.Delete
      simp only [he]
    · rw [hheap]; simp
    · intro key
      unfold TokenSession.Get
      rw [hheap]
      simp [lookup]
    · intro ref href
      rw [hheap]
      simp [Function.update, href]

/-- C6: when the borrowed connection has no error and `GET keyPrefix+Token` replies nil
without error, `RedisStore.Load` returns no error, leaves the session struct (token, max age,
map address) as it was and changes no map object; so does `TokenSession.Load` of a session
bound to that store. -/
theorem Load_missing_key_is_noop (lib : Lib B) (s : RedisStore σ B) (session : TokenSession σ B)
    (w : World σ B) (hconn : (s.Pool.Get w.server).1 = none)
    (hget : (s.Pool.Do (s.Pool.Get w.server).2 (.GET (s.keyPrefix ++ session.Token))).1 =
      (.nil, none)) :
    (s.Load lib session w).1 = none ∧
    (s.Load lib session w).2.1 = session ∧
    (s.Load lib session w).2.2.heap = w.heap ∧
    (session.Store = s →
      (session.Load lib w).1 = none ∧ (session.Load lib w).2.heap = w.heap) := by
  have h : (s.Load lib session w).1 = none ∧ (s.Load lib session w).2.1 = session ∧
      (s.Load lib session w).2.2.heap = w.heap := by
    unfold RedisStore.Load
    simp only [RedisStore.borrow, hconn, RedisStore.send, hget, RedisStore.release]
    simp
  refine ⟨h.1, h.2.1, h.2.2, ?_⟩
  intro hs
  unfold TokenSession.Load
  rw [hs]
  exact ⟨h.1, h.2.2⟩

theorem Unmarshal_nil_nodup (lib : Lib B) (d : B) : (keys (Unmarshal lib d []).1).Nodup := by
  unfold Unmarshal
  split
  · simp [keys]
  · simp [keys]
  · exact keys_insertAll_nodup _ _ (by simp [keys])
  · simp [keys]

/-- C9: when decoding the payload fails, `Deserialize` returns the decoding error and every
map object, the session's included, is exactly as before, whatever the decoder had already
put into its own fresh map. -/
theorem Deserialize_failure_is_atomic (lib : Lib B) (s : TokenSession σ B) (d : B)
    (w : World σ B) (e : String) (hfail : (Unmarshal lib d []).2 = some e) :
    (s.Deserialize lib d w).1 = some (.json e) ∧ (s.Deserialize lib d w).2.heap = w.heap := by
  unfold TokenSession.Deserialize
  simp only [hfail, World.emit]
  simp

theorem Deserialize_ok (lib : Lib B) (s : TokenSession σ B) (d : B) (w : World σ B)
    (hok : (Unmarshal lib d []).2 = none) :
    s.Deserialize lib d w =
      (none, w.setMap s.Values (insertAll (w.heap s.Values) (Unmarshal lib d []).1)) := by
  unfold TokenSession.Deserialize
  simp only [hok]

/-- C7: when the payload `d` decodes without error to the mapping `R`, `Deserialize` succeeds
and afterwards a key looked up in the session's map gives `R`'s value if `R` has the key and
otherwise what the map gave before, so the keys are those of the old map and of `R`; other map
objects are untouched. The same holds after a `Load` whose `GET` replied with `d`. -/
theorem Deserialize_merges (lib : Lib B) (s : TokenSession σ B) (d : B) (w : World σ B)
    (hok : (Unmarshal lib d []).2 = none) :
    (s.Deserialize lib d w).1 = none ∧
    (∀ k v, lookup k (Unmarshal lib d []).1 = some v →
      lookup k ((s.Deserialize lib d w).2.heap s.Values) = some v) ∧
    (∀ k, lookup k (Unmarshal lib d []).1 = none →
      lookup k ((s.Deserialize lib d w).2.heap s.Values) = lookup k (w.heap s.Values)) ∧
    (∀ ref, ref ≠ s.Values → (s.Deserialize lib d w).2.heap ref = w.heap ref) ∧
    (∀ (store : RedisStore σ B) (data : Reply B),
      (store.Pool.Get w.server).1 = none →
      (store.Pool.Do (store.Pool.Get w.server).2 (.GET (store.keyPrefix ++ s.Token))).1 =
        (data, none) →
      data ≠ .nil → RedisStore.replyBytes lib data = .ok d →
      (store.Load lib s w).1 = none ∧
      (∀ k v, lookup k (Unmarshal lib d []).1 = some v →
        lookup k ((store.Load lib s w).2.2.heap s.Values) = some v) ∧
      (∀ k, lookup k (Unmarshal lib d []).1 = none →
        lookup k ((store.Load lib s w).2.2.heap s.Values) = lookup k (w.heap s.Values))) := by
  have hmerge : ∀ (h : Nat → Values) (k : GoString),
      (∀ v, lookup k (Unmarshal lib d []).1 = some v →
        lookup k (Function.update h s.Values
          (insertAll (h s.Values) (Unmarshal lib d []).1) s.Values) = some v) ∧
      (lookup k (Unmarshal lib d []).1 = none →
        lookup k (Function.update h s.Values
          (insertAll (h s.Values) (Unmarshal lib d []).1) s.Values) = lookup k (h s.Values)) := by
    intro h k
    rw [Function.update_same]
    exact lookup_insertAll_cases _ _ (Unmarshal_nil_nodup lib d) k
  refine ⟨?_, ?_, ?_, ?_, ?_⟩
  · rw [Deserialize_ok lib s d w hok]
  · intro k v hv
    rw [Deserialize_ok lib s d w hok]
    exact (hmerge w.heap k).1 v hv
  · intro k hv
    rw [Deserialize_ok lib s d w hok]
    exact (hmerge w.heap k).2 hv
  · intro ref href
    rw [Deserialize_ok lib s d w hok]
    simp [World.setMap, Function.update, href]
  · intro store data hconn hget hdata hbytes
    have hload : store.Load lib s w =
        (none, s, store.release ((s.Deserialize lib d
          (store.send (.GET (store.keyPrefix ++ s.Token)) (store.borrow w).2).2).2)) := by
      unfold RedisStore.Load
      simp only [RedisStore.borrow, hconn, RedisStore.send, hget]
      cases data with
      | nil => exact absurd rfl hdata
      | bytes b =>
        simp only [RedisStore.replyBytes] at hbytes ⊢
        injection hbytes with hb
        subst hb
        simp only [Deserialize_ok lib s _ _ hok]
      | string str =>
        simp only [RedisStore.replyBytes] at hbytes ⊢
        injection hbytes with hb
        subst hb
        simp only [Deserialize_ok lib s _ _ hok]
      | error t => simp [RedisStore.replyBytes] at hbytes
      | other t => simp [RedisStore.replyBytes] at hbytes
    rw [hload]
    refine ⟨rfl, ?_, ?_⟩
    · intro k v hv
      rw [Deserialize_ok lib s d _ hok]
      simp only [RedisStore.release, World.setMap, RedisStore.send, RedisStore.borrow]
      exact (hmerge w.heap k).1 v hv
    · intro k hv
      rw [Deserialize_ok lib s d _ hok]
      simp only [RedisStore.release, World.setMap, RedisStore.send, RedisStore.borrow]
      exact (hmerge w.heap k).2 hv

/-- C8: each of `MustGetInt`, `MustGetInt64`, `MustGetString`, `MustGetFloat32` and
`MustGetFloat64` leaves the world as it was, returns the default when the key is absent or holds
a value of another dynamic type, and returns the stored value when the key holds a value of its
own type; so `MustGetInt("x", 7)` is 7 when "x" is absent and when "x" holds a string. -/
theorem MustGet_typed_or_default (s : TokenSession σ B) (w : World σ B) (key : GoString) :
    (∀ d, (s.MustGetInt key d w).2 = w ∧
      (lookup key (w.heap s.Values) = none → (s.MustGetInt key d w).1 = d) ∧
      (∀ v, lookup key (w.heap s.Values) = some v → (∀ n, v ≠ .int n) →
        (s.MustGetInt key d w).1 = d) ∧
      (∀ n, lookup key (w.heap s.Values) = some (.int n) → (s.MustGetInt key d w).1 = n)) ∧
    (∀ d, (s.MustGetInt64 key d w).2 = w ∧
      (lookup key (w.heap s.Values) = none → (s.MustGetInt64 key d w).1 = d) ∧
      (∀ v, lookup key (w.heap s.Values) = some v → (∀ n, v ≠ .int64 n) →
        (s.MustGetInt64 key d w).1 = d) ∧
      (∀ n, lookup key (w.heap s.Values) = some (.int64 n) → (s.MustGetInt64 key d w).1 = n)) ∧
    (∀ d, (s.MustGetString key d w).2 = w ∧
      (lookup key (w.heap s.Values) = none → (s.MustGetString key d w).1 = d) ∧
      (∀ v, lookup key (w.heap s.Values) = some v → (∀ x, v ≠ .string x) →
        (s.MustGetString key d w).1 = d) ∧
      (∀ x, lookup key (w.heap s.Values) = some (.string x) → (s.MustGetString key d w).1 = x)) ∧
    (∀ d, (s.MustGetFloat32 key d w).2 = w ∧
      (lookup key (w.heap s.Values) = none → (s.MustGetFloat32 key d w).1 = d) ∧
      (∀ v, lookup key (w.heap s.Values) = some v → (∀ x, v ≠ .float32 x) →
        (s.MustGetFloat32 key d w).1 = d) ∧
      (∀ x, lookup key (w.heap s.Values) = some (.float32 x) → (s.MustGetFloat32 key d w).1 = x)) ∧
    (∀ d, (s.MustGetFloat64 key d w).2 = w ∧
      (lookup key (w.heap s.Values) = none → (s.MustGetFloat64 key d w).1 = d) ∧
      (∀ v, lookup key (w.heap s.Values) = some v → (∀ x, v ≠ .float64 x) →
        (s.MustGetFloat64 key d w).1 = d) ∧
      (∀ x, lookup key (w.heap s.Values) = some (.float64 x) → (s.MustGetFloat64 key d w).1 = x)) ∧
    (key = utf8 "x" → lookup key (w.heap s.Values) = none → (s.MustGetInt key 7 w).1 = 7) ∧
    (key = utf8 "x" → ∀ str, lookup key (w.heap s.Values) = some (.string str) →
      (s.MustGetInt key 7 w).1 = 7) := by
  refine ⟨?_, ?_, ?_, ?_, ?_, ?_, ?_⟩
  · intro d
    unfold TokenSession.MustGetInt TokenSession.MustGet
    refine ⟨?_, ?_, ?_, ?_⟩
    · cases lookup key (w.heap s.Values) with
      | none => rfl
      | some v => cases v <;> rfl
    · intro h; simp only [h]
    · intro v h hv
      cases v <;> first | exact absurd rfl (hv _) | simp only [h]
    · intro n h; simp only [h]
  · intro d
    unfold TokenSession.MustGetInt64 TokenSession.MustGet
    refine ⟨?_, ?_, ?_, ?_⟩
    · cases lookup key (w.heap s.Values) with
      | none => rfl
      | some v => cases v <;> rfl
    · intro h; simp only [h]
    · intro v h hv
      cases v <;> first | exact absurd rfl (hv _) | simp only [h]
    · intro n h; simp only [h]
  · intro d
    unfold TokenSession.MustGetString TokenSession.MustGet
    refine ⟨?_, ?_, ?_, ?_⟩
    · cases lookup key (w.heap s.Values) with
      | none => rfl
      | some v => cases v <;> rfl
    · intro h; simp only [h]
    · intro v h hv
      cases v <;> first | exact absurd rfl (hv _) | simp only [h]
    · intro n h; simp only [h]
  · intro d
    unfold TokenSession.MustGetFloat32 TokenSession.MustGet
    refine ⟨?_, ?_, ?_, ?_⟩
    · cases lookup key (w.heap s.Values) with
      | none => rfl
      | some v => cases v <;> rfl
    · intro h; simp only [h]
    · intro v h hv
      cases v <;> first | exact absurd rfl (hv _) | simp only [h]
    · intro n h; simp only [h]
  · intro d
    unfold TokenSession.MustGetFloat64 TokenSession.MustGet
    refine ⟨?_, ?_, ?_, ?_⟩
    · cases lookup key (w.heap s.Values) with
      | none => rfl
      | some v => cases v <;> rfl
    · intro h; simp only [h]
    · intro v h hv
      cases v <;> first | exact absurd rfl (hv _) | simp only [h]
    · intro n h; simp only [h]
  · intro _ h
    unfold TokenSession.MustGetInt TokenSession.MustGet
    simp only [h]
  · intro _ str h
    unfold TokenSession.MustGetInt TokenSession.MustGet
    simp only [h]

end Session

/-! ## The codec: what comes back from `Serialize` then `Deserialize` -/

section Codec

variable {σ B : Type}

theorem isFloat64_lt (x : ℚ) (h : IsFloat64 x) : x.num.natAbs < x.den <<< 1024 := by
  have hp : ∀ n : Nat, 0 < 1 <<< n := fun n => by
    rw [Nat.shiftLeft_eq, Nat.one_mul]; exact Nat.two_pow_pos n
  have hg : 0 < Nat.gcd x.num.natAbs (1 <<< 971) := Nat.gcd_pos_of_pos_right _ (hp 971)
  have hle : Nat.gcd x.num.natAbs (1 <<< 971) ≤ 1 <<< 971 :=
    Nat.le_of_dvd (hp 971) (Nat.gcd_dvd_right _ _)
  have h1 : x.num.natAbs < 1 <<< 53 * Nat.gcd x.num.natAbs (1 <<< 971) :=
    (Nat.div_lt_iff_lt_mul hg).mp h.2
  have h2 : 1 <<< 53 * Nat.gcd x.num.natAbs (1 <<< 971) ≤ 1 <<< 53 * 1 <<< 971 :=
    Nat.mul_le_mul_left _ hle
  have h3 : 1 <<< 53 * 1 <<< 971 = 1 <<< 1024 := by
    simp only [Nat.shiftLeft_eq, Nat.one_mul, ← pow_add]
  have h4 : 1 <<< 1024 ≤ x.den <<< 1024 := by
    simp only [Nat.shiftLeft_eq, Nat.one_mul]
    exact Nat.le_mul_of_pos_left _ x.den_pos
  omega

theorem isDecimal_of_dvd_two_pow (x : ℚ) (n : Nat) (h : x.den ∣ 1 <<< n) : IsDecimal x := by
  rw [Nat.shiftLeft_eq, Nat.one_mul] at h
  exact ⟨n, dvd_trans h (pow_dvd_pow_of_dvd (by decide) n)⟩

theorem isFloat64_decimal (x : ℚ) (h : IsFloat64 x) : IsDecimal x :=
  isDecimal_of_dvd_two_pow x 1074 (Nat.dvd_of_mod_eq_zero h.1)

theorem wellFormed_null (depth : Nat) : Json.null.wellFormed depth := by
  simp [Json.wellFormed]

theorem wellFormed_bool (depth : Nat) (b : Bool) : (Json.bool b).wellFormed depth := by
  simp [Json.wellFormed]

theorem wellFormed_number (depth : Nat) (q : ℚ) (h : IsDecimal q) :
    (Json.number q).wellFormed depth := by
  simpa [Json.wellFormed] using h

theorem wellFormed_string (depth : Nat) (s : GoString) (h : toValidUTF8 s = s) :
    (Json.string s).wellFormed depth := by
  simpa [Json.wellFormed] using h

theorem wellFormed_array (depth : Nat) (js : List Json) (h : Json.wellFormedList js depth) :
    (Json.array js).wellFormed (depth + 1) := by
  simpa [Json.wellFormed] using h

theorem wellFormed_object (depth : Nat) (js : List (GoString × Json))
    (h : Json.wellFormedMembers js depth) : (Json.object js).wellFormed (depth + 1) := by
  simpa [Json.wellFormed] using h

theorem wellFormedList_nil (depth : Nat) : Json.wellFormedList [] depth := by
  simp [Json.wellFormedList]

theorem wellFormedList_cons (depth : Nat) (j : Json) (js : List Json)
    (h1 : j.wellFormed depth) (h2 : Json.wellFormedList js depth) :
    Json.wellFormedList (j :: js) depth := by
  simp only [Json.wellFormedList]
  exact ⟨h1, h2⟩

theorem wellFormedMembers_nil (depth : Nat) : Json.wellFormedMembers [] depth := by
  simp [Json.wellFormedMembers]

theorem wellFormedMembers_cons (depth : Nat) (k : GoString) (j : Json)
    (js : List (GoString × Json)) (hk : toValidUTF8 k = k) (h1 : j.wellFormed depth)
    (h2 : Json.wellFormedMembers js depth) : Json.wellFormedMembers ((k, j) :: js) depth := by
  simp only [Json.wellFormedMembers]
  exact ⟨hk, h1, h2⟩

mutual
theorem within_of_wellFormed : ∀ (j : Json) (depth : Nat), j.wellFormed depth → j.within depth = true
  | .null, _, _ => by simp [Json.within]
  | .bool _, _, _ => by simp [Json.within]
  | .number _, _, _ => by simp [Json.within]
  | .string _, _, _ => by simp [Json.within]
  | .array _, 0, h => by simp [Json.wellFormed] at h
  | .array xs, inner + 1, h => by
    have h1 : Json.wellFormedList xs inner := by simpa [Json.wellFormed] using h
    simpa [Json.within] using withinList_of_wellFormed xs inner h1
  | .object _, 0, h => by simp [Json.wellFormed] at h
  | .object kvs, inner + 1, h => by
    have h1 : Json.wellFormedMembers kvs inner := by simpa [Json.wellFormed] using h
    simpa [Json.within] using withinMembers_of_wellFormed kvs inner h1
theorem withinList_of_wellFormed :
    ∀ (js : List Json) (depth : Nat), Json.wellFormedList js depth → Json.withinList js depth = true
  | [], _, _ => by simp [Json.withinList]
  | j :: js, depth, h => by
    have h1 : j.wellFormed depth ∧ Json.wellFormedList js depth := by
      simpa [Json.wellFormedList] using h
    simp only [Json.withinList, within_of_wellFormed j depth h1.1,
      withinList_of_wellFormed js depth h1.2, Bool.and_self]
theorem withinMembers_of_wellFormed :
    ∀ (kvs : List (GoString × Json)) (depth : Nat),
      Json.wellFormedMembers kvs depth → Json.withinMembers kvs depth = true
  | [], _, _ => by simp [Json.withinMembers]
  | (k, j) :: kvs, depth, h => by
    have h1 : toValidUTF8 k = k ∧ j.wellFormed depth ∧ Json.wellFormedMembers kvs depth := by
      simpa [Json.wellFormedMembers] using h
    simp only [Json.withinMembers, within_of_wellFormed j depth h1.2.1,
      withinMembers_of_wellFormed kvs depth h1.2.2, Bool.and_self]
end

theorem marshalValue_nested (lib : Lib B) :
    ∀ n : Nat, marshalValue lib (nested n) = .ok (nestedJson n)
  | 0 => rfl
  | n + 1 => by
    simp only [nested, nestedJson, marshalValue, marshalList, marshalValue_nested lib n]

theorem within_nestedJson : ∀ n depth : Nat, (nestedJson n).within depth = decide (n ≤ depth)
  | 0, depth => by simp [nestedJson, Json.within]
  | n + 1, 0 => by simp [nestedJson, Json.within]
  | n + 1, depth + 1 => by
    simp [nestedJson, Json.within, Json.withinList, within_nestedJson n depth]

theorem exactLib_lawful : exactLib.Lawful where
  parse_render := fun j h => by
    have hw : j.within 10000 = true := within_of_wellFormed j 10000 h
    simp only [exactLib, hw, if_true]
  formatFloat_decimal := fun x h => isFloat64_decimal x h
  parseFloat_formatFloat := fun x h => by
    have hlt := isFloat64_lt x h
    simp only [exactLib, if_pos hlt]

mutual
theorem roundtrip_value (lib : Lib B) (hl : lib.Lawful) :
    ∀ (depth : Nat) (v : Value), v.native depth = true →
      ∃ j, marshalValue lib v = .ok j ∧ decodeValue lib j = (v, none) ∧ j.wellFormed depth
  | depth, .nil, _ => ⟨.null, rfl, rfl, wellFormed_null depth⟩
  | depth, .bool b, _ => ⟨.bool b, rfl, rfl, wellFormed_bool depth b⟩
  | _, .int _, h => by simp [Value.native] at h
  | _, .int64 _, h => by simp [Value.native] at h
  | _, .float32 _, h => by simp [Value.native] at h
  | _, .float64 .posInf, h => by simp [Value.native] at h
  | _, .float64 .negInf, h => by simp [Value.native] at h
  | _, .float64 .nan, h => by simp [Value.native] at h
  | depth, .float64 (.num x), h => by
    have hx : IsFloat64 x := by simpa [Value.native] using h
    refine ⟨.number (lib.formatFloat 64 x), rfl, ?_, ?_⟩
    · simp only [decodeValue, hl.parseFloat_formatFloat x hx]
    · exact wellFormed_number depth _ (hl.formatFloat_decimal x hx)
  | depth, .string s, h => by
    have hs : toValidUTF8 s = s := by simpa [Value.native] using h
    refine ⟨.string (toValidUTF8 s), rfl, ?_, ?_⟩
    · simp only [decodeValue, hs]
    · exact wellFormed_string depth _ (by rw [hs, hs])
  | _, .nilSlice, h => by simp [Value.native] at h
  | _, .nilMap, h => by simp [Value.native] at h
  | _, .unsupported _, h => by simp [Value.native] at h
  | 0, .slice _, h => by simp [Value.native] at h
  | 0, .map _, h => by simp [Value.native] at h
  | depth + 1, .slice xs, h => by
    have hxs : nativeList xs depth = true := by simpa [Value.native] using h
    obtain ⟨js, h1, h2, h3⟩ := roundtrip_list lib hl depth xs hxs
    refine ⟨.array js, ?_, ?_, ?_⟩
    · simp only [marshalValue, h1]
    · simp only [decodeValue, h2]
    · exact wellFormed_array depth js h3
  | depth + 1, .map kvs, h => by
    have hkv : nativeMembers kvs depth = true ∧ (keys kvs).Nodup := by
      simpa [Value.native] using h
    obtain ⟨js, h1, h2, h3⟩ := roundtrip_members lib hl depth kvs hkv.1
    refine ⟨.object js, ?_, ?_, ?_⟩
    · simp only [marshalValue, h1]
    · simp only [decodeValue, h2, insertAll_nil_eq hkv.2]
    · exact wellFormed_object depth js h3
theorem roundtrip_list (lib : Lib B) (hl : lib.Lawful) :
    ∀ (depth : Nat) (vs : List Value), nativeList vs depth = true →
      ∃ js, marshalList lib vs = .ok js ∧ decodeList lib js = (vs, none) ∧
        Json.wellFormedList js depth
  | depth, [], _ => ⟨[], rfl, rfl, wellFormedList_nil depth⟩
  | depth, v :: vs, h => by
    have hv : v.native depth = true ∧ nativeList vs depth = true := by
      simpa [nativeList] using h
    obtain ⟨j, h1, h2, h5⟩ := roundtrip_value lib hl depth v hv.1
    obtain ⟨js, h3, h4, h6⟩ := roundtrip_list lib hl depth vs hv.2
    refine ⟨j :: js, ?_, ?_, ?_⟩
    · simp only [marshalList, h1, h3]
    · simp only [decodeList, h2, h4, firstError]
    · exact wellFormedList_cons depth j js h5 h6
theorem roundtrip_members (lib : Lib B) (hl : lib.Lawful) :
    ∀ (depth : Nat) (kvs : List (GoString × Value)), nativeMembers kvs depth = true →
      ∃ js, marshalMembers lib kvs = .ok js ∧ decodeMembers lib js = (kvs, none) ∧
        Json.wellFormedMembers js depth
  | depth, [], _ => ⟨[], rfl, rfl, wellFormedMembers_nil depth⟩
  | depth, (k, v) :: kvs, h => by
    have hv : (toValidUTF8 k = k ∧ v.native depth = true) ∧ nativeMembers kvs depth = true := by
      simpa [nativeMembers] using h
    obtain ⟨j, h1, h2, h5⟩ := roundtrip_value lib hl depth v hv.1.2
    obtain ⟨js, h3, h4, h6⟩ := roundtrip_members lib hl depth kvs hv.2
    refine ⟨(toValidUTF8 k, j) :: js, ?_, ?_, ?_⟩
    · simp only [marshalMembers, h1, h3]
    · simp only [decodeMembers, h2, h4, firstError, hv.1.1]
    · exact wellFormedMembers_cons depth _ j js (by rw [hv.1.1, hv.1.1]) h5 h6
end

theorem decodeValue_ne_int (lib : Lib B) (n : Int) : ∀ j : Json, (decodeValue lib j).1 ≠ .int n
  | .null => by simp [decodeValue]
  | .bool _ => by simp [decodeValue]
  | .number q => by
    simp only [decodeValue]
    cases lib.parseFloat q <;> simp
  | .string _ => by simp [decodeValue]
  | .array _ => by simp [decodeValue]
  | .object _ => by simp [decodeValue]

theorem decodeMembers_ne_int (lib : Lib B) (n : Int) :
    ∀ (kvs : List (GoString × Json)) (k : GoString),
      (k, Value.int n) ∉ (decodeMembers lib kvs).1
  | [], k => by simp [decodeMembers]
  | (k', j) :: kvs, k => by
    simp only [decodeMembers, List.mem_cons, not_or]
    refine ⟨?_, decodeMembers_ne_int lib n kvs k⟩
    intro h
    injection h with _ h2
    exact decodeValue_ne_int lib n j h2.symm

theorem mem_of_lookup {κ α : Type} [DecidableEq κ] {k : κ} {v : α} :
    ∀ {m : List (κ × α)}, lookup k m = some v → (k, v) ∈ m
  | [], h => by simp [lookup] at h
  | (k', v') :: rest, h => by
    by_cases hk : k' = k
    · simp only [lookup, hk, if_true, Option.some.injEq] at h
      subst hk; subst h
      exact List.mem_cons_self _ _
    · simp only [lookup, hk, if_false] at h
      exact List.mem_cons_of_mem _ (mem_of_lookup h)

theorem mem_insert {κ α : Type} [DecidableEq κ] {k : κ} {v : α} (p : κ × α) :
    ∀ {m : List (κ × α)}, p ∈ insert k v m → p = (k, v) ∨ p ∈ m
  | [], h => by
    simp only [insert, List.mem_singleton] at h
    exact Or.inl h
  | (k', v') :: rest, h => by
    by_cases hk : k' = k
    · simp only [insert, hk, if_true, List.mem_cons] at h
      rcases h with h | h
      · exact Or.inl h
      · exact Or.inr (List.mem_cons_of_mem _ h)
    · simp only [insert, hk, if_false, List.mem_cons] at h
      rcases h with h | h
      · exact Or.inr (by rw [h]; exact List.mem_cons_self _ _)
      · rcases mem_insert p h with h | h
        · exact Or.inl h
        · exact Or.inr (List.mem_cons_of_mem _ h)

theorem mem_insertAll {κ α : Type} [DecidableEq κ] (p : κ × α) :
    ∀ (src dst : List (κ × α)), p ∈ insertAll dst src → p ∈ dst ∨ p ∈ src
  | [], dst, h => Or.inl h
  | q :: src, dst, h => by
    have h' : p ∈ insertAll (insert q.1 q.2 dst) src := h
    rcases mem_insertAll p src _ h' with h1 | h1
    · rcases mem_insert p h1 with h2 | h2
      · exact Or.inr (by rw [h2]; exact List.mem_cons_self _ _)
      · exact Or.inl h2
    · exact Or.inr (List.mem_cons_of_mem _ h1)

theorem Unmarshal_ne_int (lib : Lib B) (d : B) (k : GoString) (n : Int) :
    lookup k (Unmarshal lib d []).1 ≠ some (.int n) := by
  intro h
  have hm := mem_of_lookup h
  unfold Unmarshal at hm
  split at hm
  · simp at hm
  · simp at hm
  · rcases mem_insertAll _ _ _ hm with h1 | h1
    · simp at h1
    · exact decodeMembers_ne_int lib n _ k h1
  · simp at hm

theorem Serialize_single (lib : Lib B) (s : TokenSession σ B) (w : World σ B) (k : GoString)
    (v : Value) (j : Json) (hw : w.heap s.Values = [(k, v)]) (hj : marshalValue lib v = .ok j) :
    (s.Serialize lib w).1 = .ok (lib.render (.object [(toValidUTF8 k, j)])) := by
  unfold TokenSession.Serialize Marshal
  rw [hw]
  simp only [insertAll, List.foldl, insert, marshalMembers, hj]

theorem object_nestedJson_not_within (k : GoString) (n depth : Nat) (h : depth ≤ n) :
    (Json.object [(k, nestedJson n)]).within depth = false := by
  cases depth with
  | zero => simp [Json.within]
  | succ inner =>
    have hlt : ¬ n ≤ inner := by omega
    simp [Json.within, Json.withinMembers, within_nestedJson, hlt]

theorem Deserialize_too_deep (s : TokenSession (List (String × Payload)) Payload)
    (w : World (List (String × Payload)) Payload) (k : GoString) (n : Nat) (h : 10000 ≤ n) :
    (s.Deserialize exactLib (.document (.object [(k, nestedJson n)])) w).1 =
      some (.json "exceeded max depth") := by
  have hw := object_nestedJson_not_within k n 10000 h
  have hU : Unmarshal exactLib (.document (.object [(k, nestedJson n)])) [] =
      ([], some "exceeded max depth") := by
    unfold Unmarshal
    simp only [exactLib, hw]
    rfl
  unfold TokenSession.Deserialize
  simp only [hU]

/-- C4, as the code has it: a mapping, nested no deeper than the JSON parser allows, whose
keys and string values are valid UTF-8 and whose values are of the kinds decoding produces
(nil, booleans, finite float64 numbers, strings, non-nil slices and non-nil maps of such
values) serializes, and `Deserialize` of those bytes on a session whose mapping is empty
succeeds and leaves that mapping equal to the original. -/
theorem Deserialize_Serialize_native (lib : Lib B) (hl : lib.Lawful) (s s' : TokenSession σ B)
    (w w' : World σ B) (hnative : (Value.map (w.heap s.Values)).native lib.maxDepth = true)
    (hempty : w'.heap s'.Values = []) :
    ∃ b, (s.Serialize lib w).1 = .ok b ∧
      (s'.Deserialize lib b w').1 = none ∧
      (s'.Deserialize lib b w').2.heap s'.Values = w.heap s.Values := by
  cases hd : lib.maxDepth with
  | zero =>
    rw [hd] at hnative
    simp [Value.native] at hnative
  | succ depth =>
    rw [hd] at hnative
    have hkv : nativeMembers (w.heap s.Values) depth = true ∧ (keys (w.heap s.Values)).Nodup := by
      simpa [Value.native] using hnative
    obtain ⟨js, h1, h2, h3⟩ := roundtrip_members lib hl depth _ hkv.1
    have hwf : (Json.object js).wellFormed lib.maxDepth := by
      rw [hd]
      exact wellFormed_object depth js h3
    have hU : Unmarshal lib (lib.render (.object js)) [] = (w.heap s.Values, none) := by
      unfold Unmarshal
      simp only [hl.parse_render _ hwf, h2, insertAll_nil_eq hkv.2]
    refine ⟨lib.render (.object js), ?_, ?_, ?_⟩
    · unfold TokenSession.Serialize Marshal
      simp only [insertAll_nil_eq hkv.2, h1]
    · unfold TokenSession.Deserialize
      simp only [hU]
    · unfold TokenSession.Deserialize
      simp only [hU, World.setMap, hempty, Function.update_same, insertAll_nil_eq hkv.2]

/-- C4, the claim as written fails for a Go int, for a string that is not valid UTF-8 and
for a mapping nested deeper than the decoder reads. The mapping `{"x": int 7}` serializes to the document `{"x":7}`, and `Deserialize` of it on an
empty session succeeds but leaves `{"x": float64 7}`, which is another mapping
(`MustGetInt("x", 0)` now gives the default 0); with any library at all, no payload decodes to
a mapping that holds an int. The mapping `{"s": "a\xffb"}` serializes with U+FFFD in place of
the byte `\xff`, and that is what `Deserialize` leaves. A mapping holding 10000 slices
within one another serializes, and `Deserialize` of those bytes fails. A key that is the
single byte `\xff` is written as U+FFFD. -/
theorem int_value_does_not_round_trip :
    ((sessionOn memStore 0).Serialize exactLib (worldWith [(utf8 "x", .int 7)])).1 =
      .ok (.document (.object [(utf8 "x", .number 7)])) ∧
    ((sessionOn memStore 0).Deserialize exactLib (.document (.object [(utf8 "x", .number 7)]))
      (worldWith [])).1 = none ∧
    ((sessionOn memStore 0).Deserialize exactLib (.document (.object [(utf8 "x", .number 7)]))
      (worldWith [])).2.heap 0 = [(utf8 "x", .float64 (.num 7))] ∧
    ((sessionOn memStore 0).Deserialize exactLib (.document (.object [(utf8 "x", .number 7)]))
      (worldWith [])).2.heap 0 ≠ [(utf8 "x", .int 7)] ∧
    ((sessionOn memStore 0).MustGetInt (utf8 "x") 0 (worldWith [(utf8 "x", .int 7)])).1 = 7 ∧
    ((sessionOn memStore 0).MustGetInt (utf8 "x") 0
      ((sessionOn memStore 0).Deserialize exactLib
        (.document (.object [(utf8 "x", .number 7)])) (worldWith [])).2).1 = 0 ∧
    (∀ (B' : Type) (lib : Lib B') (d : B') (n : Int),
      lookup (utf8 "x") (Unmarshal lib d []).1 ≠ some (.int n)) ∧
    ((sessionOn memStore 0).Serialize exactLib
      (worldWith [(utf8 "s", .string [0x61, 0xFF, 0x62])])).1 =
      .ok (.document (.object [(utf8 "s", .string [0x61, 0xEF, 0xBF, 0xBD, 0x62])])) ∧
    ((sessionOn memStore 0).Deserialize exactLib
      (.document (.object [(utf8 "s", .string [0x61, 0xEF, 0xBF, 0xBD, 0x62])]))
      (worldWith [])).2.heap 0 = [(utf8 "s", .string [0x61, 0xEF, 0xBF, 0xBD, 0x62])] ∧
    ((sessionOn memStore 0).Deserialize exactLib
      (.document (.object [(utf8 "s", .string [0x61, 0xEF, 0xBF, 0xBD, 0x62])]))
      (worldWith [])).2.heap 0 ≠ [(utf8 "s", .string [0x61, 0xFF, 0x62])] ∧
    (∃ b, ((sessionOn memStore 0).Serialize exactLib
        (worldWith [(utf8 "deep", nested 10000)])).1 = .ok b ∧
      ((sessionOn memStore 0).Deserialize exactLib b (worldWith [])).1 =
        some (.json "exceeded max depth")) ∧
    ((sessionOn memStore 0).Serialize exactLib (worldWith [([0xFF], .bool true)])).1 =
      .ok (.document (.object [([0xEF, 0xBF, 0xBD], .bool true)])) := by
  have h3 : ((sessionOn memStore 0).Deserialize exactLib
      (.document (.object [(utf8 "x", .number 7)])) (worldWith [])).2.heap 0 =
      [(utf8 "x", .float64 (.num 7))] := by rfl
  have h9 : ((sessionOn memStore 0).Deserialize exactLib
      (.document (.object [(utf8 "s", .string [0x61, 0xEF, 0xBF, 0xBD, 0x62])]))
      (worldWith [])).2.heap 0 = [(utf8 "s", .string [0x61, 0xEF, 0xBF, 0xBD, 0x62])] := by rfl
  refine ⟨by rfl, by rfl, h3, ?_, by rfl, by rfl, ?_, by rfl, h9, ?_, ?_, by rfl⟩
  · rw [h3]
    intro h
    injection h with h _
    injection h with _ h
    cases h
  · intro B' lib d n
    exact Unmarshal_ne_int lib d (utf8 "x") n
  · rw [h9]
    intro h
    injection h with h _
    injection h with _ h
    injection h with h
    simp at h
  · refine ⟨.document (.object [(toValidUTF8 (utf8 "deep"), nestedJson 10000)]), ?_, ?_⟩
    · exact Serialize_single exactLib (sessionOn memStore 0) _ (utf8 "deep") (nested 10000)
        (nestedJson 10000) (by simp [worldWith, sessionOn])
        (marshalValue_nested exactLib 10000)
    · exact Deserialize_too_deep _ _ _ 10000 (le_refl _)

end Codec

/-! ## The theorems at concrete inputs -/

section Witnesses

/-- C1 at a concrete input: a store limited to 1 byte rejects the two-node document of
`{"x": 7}` and leaves the world alone, while the same store refuses nothing at limit 0. -/
theorem Save_too_big_iff_witness :
    ((memStore.SetMaxLength 1).Save exactLib (sessionOn (memStore.SetMaxLength 1) 0)
        (worldWith [(utf8 "x", .int 7)])).1 =
      some (.new "RedisStore: the value to store is too big") ∧
    ((memStore.SetMaxLength 1).Save exactLib (sessionOn (memStore.SetMaxLength 1) 0)
        (worldWith [(utf8 "x", .int 7)])).2.2 = worldWith [(utf8 "x", .int 7)] ∧
    ((memStore.SetMaxLength 0).Save exactLib (sessionOn (memStore.SetMaxLength 0) 0)
        (worldWith [(utf8 "x", .int 7)])).1 ≠
      some (.new "RedisStore: the value to store is too big") :=
  have h := Save_too_big_iff exactLib (memStore.SetMaxLength 1)
    (sessionOn (memStore.SetMaxLength 1) 0) (worldWith [(utf8 "x", .int 7)])
    (.document (.object [(utf8 "x", .number 7)])) (by rfl)
  have h0 := Save_too_big_iff exactLib (memStore.SetMaxLength 0)
    (sessionOn (memStore.SetMaxLength 0) 0) (worldWith [(utf8 "x", .int 7)])
    (.document (.object [(utf8 "x", .number 7)])) (by rfl)
  ⟨h.1.mpr ⟨by decide, by decide⟩, h.2.1 ⟨by decide, by decide⟩, h0.2.2 (Or.inl (by rfl))⟩

/-- C2 at concrete inputs: a session with `MaxAge = 0` is stored by one
`SETEX sess_t 2592000`, one with `MaxAge = 60` by one `SETEX sess_t 60`, both without error. -/
theorem Save_issues_one_SETEX_witness :
    (memStore.Save exactLib (sessionOn memStore 0) (worldWith [(utf8 "x", .int 7)])).2.2.trace =
      [.borrow, .command (.SETEX "sess_t" 2592000 (.document (.object [(utf8 "x", .number 7)]))),
       .release] ∧
    (memStore.Save exactLib (sessionOn memStore 0) (worldWith [(utf8 "x", .int 7)])).1 = none ∧
    (memStore.Save exactLib (sessionOn memStore 60) (worldWith [(utf8 "x", .int 7)])).2.2.trace =
      [.borrow, .command (.SETEX "sess_t" 60 (.document (.object [(utf8 "x", .number 7)]))),
       .release] :=
  have h := Save_issues_one_SETEX exactLib memStore (sessionOn memStore 0)
    (worldWith [(utf8 "x", .int 7)]) (.document (.object [(utf8 "x", .number 7)])) (by rfl) (by decide)
    (by rfl)
  have h60 := Save_issues_one_SETEX exactLib memStore (sessionOn memStore 60)
    (worldWith [(utf8 "x", .int 7)]) (.document (.object [(utf8 "x", .number 7)])) (by rfl) (by decide)
    (by rfl)
  ⟨h.1, h.2.1, h60.1⟩

/-- C4 at a concrete input: a mapping with a string outside ASCII, two numbers, a slice and
a nested map comes back from `Serialize` then `Deserialize` as it was. -/
theorem Deserialize_Serialize_native_witness :
    ∃ b, ((sessionOn memStore 0).Serialize exactLib
        (worldWith [(utf8 "name", .string (utf8 "Zoë")), (utf8 "n", .float64 (.num 7)),
          (utf8 "tags", .slice [.bool true, .nil]),
          (utf8 "m", .map [(utf8 "k", .float64 (.num (mkRat 3 2)))])])).1 = .ok b ∧
      ((sessionOn memStore 0).Deserialize exactLib b (worldWith [])).1 = none ∧
      ((sessionOn memStore 0).Deserialize exactLib b (worldWith [])).2.heap 0 =
        [(utf8 "name", .string (utf8 "Zoë")), (utf8 "n", .float64 (.num 7)),
          (utf8 "tags", .slice [.bool true, .nil]),
          (utf8 "m", .map [(utf8 "k", .float64 (.num (mkRat 3 2)))])] :=
  Deserialize_Serialize_native exactLib exactLib_lawful (sessionOn memStore 0)
    (sessionOn memStore 0)
    (worldWith [(utf8 "name", .string (utf8 "Zoë")), (utf8 "n", .float64 (.num 7)),
      (utf8 "tags", .slice [.bool true, .nil]),
      (utf8 "m", .map [(utf8 "k", .float64 (.num (mkRat 3 2)))])])
    (worldWith []) (by decide) (by rfl)

/-- C5 at concrete inputs: on the unreachable server `Delete` returns the dial error and the
mapping keeps its key; on the reachable one it returns no error and the mapping is empty. -/
theorem Delete_clears_only_on_success_witness :
    ((sessionOn downStore 0).Delete (worldWith [(utf8 "a", .bool true)])).1 =
      some (.redis "dial tcp: connection refused") ∧
    ((sessionOn downStore 0).Delete (worldWith [(utf8 "a", .bool true)])).2.heap 0 =
      [(utf8 "a", .bool true)] ∧
    ((sessionOn memStore 0).Delete (worldWith [(utf8 "a", .bool true)])).1 = none ∧
    ((sessionOn memStore 0).Delete (worldWith [(utf8 "a", .bool true)])).2.heap 0 = [] :=
  have hd := (Delete_clears_only_on_success (sessionOn downStore 0)
    (worldWith [(utf8 "a", .bool true)])).1 (.redis "dial tcp: connection refused") (by rfl)
  have hm := (Delete_clears_only_on_success (sessionOn memStore 0)
    (worldWith [(utf8 "a", .bool true)])).2 (by rfl)
  ⟨hd.1, congrFun hd.2 0, hm.1, hm.2.1⟩

/-- C6 at a concrete input: on a server without the key, `Load` succeeds and the mapping keeps
exactly its one key. -/
theorem Load_missing_key_is_noop_witness :
    (memStore.Load exactLib (sessionOn memStore 0) (worldWith [(utf8 "a", .string (utf8 "local"))])).1 =
      none ∧
    (memStore.Load exactLib (sessionOn memStore 0) (worldWith [(utf8 "a", .string (utf8 "local"))])).2.2.heap
      0 = [(utf8 "a", .string (utf8 "local"))] ∧
    ((sessionOn memStore 0).Load exactLib (worldWith [(utf8 "a", .string (utf8 "local"))])).1 = none :=
  have h := Load_missing_key_is_noop exactLib memStore (sessionOn memStore 0)
    (worldWith [(utf8 "a", .string (utf8 "local"))]) (by rfl) (by rfl)
  ⟨h.1, congrFun h.2.2.1 0, (h.2.2.2 rfl).1⟩

/-- C7 at a concrete input: merging the payload `{"a": "remote", "b": true}` into the
mapping `{"a": "local", "c": nil}` overwrites "a", adds "b" and keeps "c". -/
theorem Deserialize_merges_witness :
    lookup (utf8 "a") (((sessionOn memStore 0).Deserialize exactLib
      (.document (.object [(utf8 "a", .string (utf8 "remote")), (utf8 "b", .bool true)]))
      (worldWith [(utf8 "a", .string (utf8 "local")), (utf8 "c", .nil)])).2.heap 0) = some (.string (utf8 "remote")) ∧
    lookup (utf8 "b") (((sessionOn memStore 0).Deserialize exactLib
      (.document (.object [(utf8 "a", .string (utf8 "remote")), (utf8 "b", .bool true)]))
      (worldWith [(utf8 "a", .string (utf8 "local")), (utf8 "c", .nil)])).2.heap 0) = some (.bool true) ∧
    lookup (utf8 "c") (((sessionOn memStore 0).Deserialize exactLib
      (.document (.object [(utf8 "a", .string (utf8 "remote")), (utf8 "b", .bool true)]))
      (worldWith [(utf8 "a", .string (utf8 "local")), (utf8 "c", .nil)])).2.heap 0) = some .nil :=
  have h := Deserialize_merges exactLib (sessionOn memStore 0)
    (.document (.object [(utf8 "a", .string (utf8 "remote")), (utf8 "b", .bool true)]))
    (worldWith [(utf8 "a", .string (utf8 "local")), (utf8 "c", .nil)]) (by rfl)
  ⟨h.2.1 (utf8 "a") (.string (utf8 "remote")) (by rfl), h.2.1 (utf8 "b") (.bool true) (by rfl),
    h.2.2.1 (utf8 "c") (by rfl)⟩

/-- C9 at a concrete input: the payload `{"a": "ok", "n": 2^1024}` fails on its number after
the decoder has put "a" into its own map, and the session's mapping still holds just its one
key; so it does for text that is not JSON. -/
theorem Deserialize_failure_is_atomic_witness :
    (Unmarshal exactLib
      (.document (.object [(utf8 "a", .string (utf8 "ok")), (utf8 "n", .number ((1 <<< 1024 : Nat) : ℚ))]))
      []).1 = [(utf8 "a", .string (utf8 "ok")), (utf8 "n", .nil)] ∧
    ((sessionOn memStore 0).Deserialize exactLib
      (.document (.object [(utf8 "a", .string (utf8 "ok")), (utf8 "n", .number ((1 <<< 1024 : Nat) : ℚ))]))
      (worldWith [(utf8 "z", .bool true)])).1 =
      some (.json "json: cannot unmarshal number into Go value of type float64") ∧
    ((sessionOn memStore 0).Deserialize exactLib
      (.document (.object [(utf8 "a", .string (utf8 "ok")), (utf8 "n", .number ((1 <<< 1024 : Nat) : ℚ))]))
      (worldWith [(utf8 "z", .bool true)])).2.heap 0 = [(utf8 "z", .bool true)] ∧
    ((sessionOn memStore 0).Deserialize exactLib (.malformed "session")
      (worldWith [(utf8 "z", .bool true)])).2.heap 0 = [(utf8 "z", .bool true)] :=
  have h := Deserialize_failure_is_atomic exactLib (sessionOn memStore 0)
    (.document (.object [(utf8 "a", .string (utf8 "ok")), (utf8 "n", .number ((1 <<< 1024 : Nat) : ℚ))]))
    (worldWith [(utf8 "z", .bool true)])
    "json: cannot unmarshal number into Go value of type float64" (by rfl)
  have hm := Deserialize_failure_is_atomic exactLib (sessionOn memStore 0) (.malformed "session")
    (worldWith [(utf8 "z", .bool true)]) "invalid character in session" (by rfl)
  ⟨by rfl, h.1, congrFun h.2 0, congrFun hm.2 0⟩

end Witnesses

end Tokensession
